import Mathlib

/-!
Shallow embedding of the wordmake password tool (wordmake.py).

Passwords and words are modelled as `List Char`.  Randomness is modelled by an
oracle `σ : Nat → Nat` together with an index `k` that counts the PRNG draws
made so far: each primitive draw (`random.choice`, `random.randint`, one coin
of `random.shuffle`, ...) consumes one oracle value and advances the index.
`random.choice l` at index `k` returns element `σ k % l.length` of `l`;
`random.randint 0 m` returns `σ k % (m+1)`.

File input is abstracted as the list of loaded (already stripped) lines, and
file output as a `wrote` event in the run's event trace.  The unbounded
draw-until-filter loop of `pick_word` is given explicit fuel; exhausting the
fuel (i.e. divergence / a raised exception) is `none`.

Python's `int((i+1)/count*100)` progress value is modelled as the natural
floor division `(i+1) * 100 / count`.
-/

namespace Wordmake

/-- Random oracle: the value of the n-th PRNG draw of a run. -/
abbrev Oracle := Nat → Nat

/-- Model of `random.choice(l)` at draw index `k` (one oracle value consumed). -/
def pyChoice (σ : Oracle) (k : Nat) (l : List Char) : Char × Nat :=
  (l.getD (σ k % l.length) ' ', k + 1)

/-- SYMBOLS = "!@#$%^&*()-_+=" from wordmake.py. -/
def SYMBOLS : List Char := "!@#$%^&*()-_+=".data

/-- AMBIGUOUS = "0O1lI" from wordmake.py. -/
def AMBIGUOUS : List Char := "0O1lI".data

/-- The character class of the regex [!@#$%^&*()_+=-] used by the smart-mode
and policy symbol checks (same character set as SYMBOLS). -/
def SYM_REGEX : List Char := "!@#$%^&*()_+=-".data

/-- The string "0123456789" drawn from for fixed-length numeric blocks. -/
def DIGITS : List Char := "0123456789".data

/-- The string "ABCDEFGHIJKLMNOPQRSTUVWXYZ" drawn from by the Fixer policy. -/
def UPPER : List Char := "ABCDEFGHIJKLMNOPQRSTUVWXYZ".data

/-- The string "abcdefghijklmnopqrstuvwxyz" drawn from by the Fixer policy. -/
def LOWER : List Char := "abcdefghijklmnopqrstuvwxyz".data

/-- The regex \d on ASCII input: a decimal digit character. -/
def isDigitChar (c : Char) : Bool := '0' ≤ c && c ≤ '9'

/-- The regex [A-Z]. -/
def isUpperChar (c : Char) : Bool := 'A' ≤ c && c ≤ 'Z'

/-- The regex [a-z]. -/
def isLowerChar (c : Char) : Bool := 'a' ≤ c && c ≤ 'z'

/-- The regex \w on ASCII input: letter, digit or underscore. -/
def isWordChar (c : Char) : Bool :=
  ('a' ≤ c && c ≤ 'z') || ('A' ≤ c && c ≤ 'Z') || ('0' ≤ c && c ≤ '9') || c = '_'

/-- Membership in the symbol character class [!@#$%^&*()_+=-]. -/
def isSymRegexChar (c : Char) : Bool := SYM_REGEX.contains c

/-- LEET dictionary lookup: `LEET.get(c.lower(), c)` with the table
a→@, o→0, i→1, e→3, s→$, t→7, l→1. -/
def leetChar (c : Char) : Char :=
  if c.toLower = 'a' then '@'
  else if c.toLower = 'o' then '0'
  else if c.toLower = 'i' then '1'
  else if c.toLower = 'e' then '3'
  else if c.toLower = 's' then '$'
  else if c.toLower = 't' then '7'
  else if c.toLower = 'l' then '1'
  else c

/-- `GenerateWorker.leet`: per-character LEET substitution. -/
def leet (w : List Char) : List Char := w.map leetChar

/-- The decimal digit character for a value below ten. -/
def digitChar (n : Nat) : Char := DIGITS.getD n ' '

/-- Decimal printing with structural fuel (the fuel `n+1` always suffices). -/
def decDigitsAux : Nat → Nat → List Char
  | 0, _ => []
  | f + 1, n =>
    if n < 10 then [digitChar n]
    else decDigitsAux f (n / 10) ++ [digitChar (n % 10)]

/-- Model of Python `str(n)` for a natural number `n`. -/
def decDigits (n : Nat) : List Char := decDigitsAux (n + 1) n

/-- Order-preserving deduplication keeping first occurrences, the semantics of
`list(dict.fromkeys(words))`; `seen` accumulates the keys already kept. -/
def dedupFirstAux {α : Type} [DecidableEq α] (seen : List α) : List α → List α
  | [] => []
  | w :: ws =>
    if w ∈ seen then dedupFirstAux seen ws
    else w :: dedupFirstAux (w :: seen) ws

/-- `list(dict.fromkeys(l))`: first-occurrence-order deduplication. -/
def dedupFirst {α : Type} [DecidableEq α] (l : List α) : List α :=
  dedupFirstAux [] l

/-- The `entropy` function of wordmake.py: 0 for the empty string, otherwise
`len * Σ over distinct characters of -(count/len) * log2(count/len)`
(frequency dictionary iterated in insertion order; the sum is over the
distinct characters in first-occurrence order). -/
noncomputable def entropy (password : List Char) : ℝ :=
  if password = [] then 0
  else
    (((dedupFirst password).map (fun c =>
        -((password.count c : ℝ) / (password.length : ℝ)) *
          Real.logb 2 ((password.count c : ℝ) / (password.length : ℝ)))).sum) *
      (password.length : ℝ)

/-- The Generator configuration dictionary.  String-valued options keep their
Python string encodings ("lower", "dash", "none", "fixed", ...).  The two
regex options are abstracted as optional match predicates (`none` models the
empty, falsy, regex string).  `prefixStr`/`suffixStr` are the `prefix` and
`suffix` entries. -/
structure GenConfig where
  words_per_password : Nat
  case_mode : String
  unique_words : Bool
  remove_words_with_numbers : Bool
  remove_words_with_symbols : Bool
  include_regex : Option (List Char → Bool)
  exclude_regex : Option (List Char → Bool)
  min_word_len : Nat
  max_word_len : Nat
  remove_source_duplicates : Bool
  pattern_mode : Bool
  pattern : List Char
  leet_mode : Bool
  shuffle_words : Bool
  insert_between : String
  use_numbers : Bool
  num_type : String
  num_len : Nat
  num_max : Nat
  numbers_at_end : Bool
  use_symbols : Bool
  sym_count : Nat
  separator : String
  prefixStr : List Char
  suffixStr : List Char
  avoid_duplicates : Bool
  min_len : Nat
  exclude_ambiguous : Bool
  smart_mode : Bool
  count : Nat
  output : String
  output_format : String

/-- The include-regex guard `cfg["include_regex"] and not re.search(...)`:
true when the word must be rejected. -/
def includeRegexFails : Option (List Char → Bool) → List Char → Bool
  | none, _ => false
  | some rx, w => !(rx w)

/-- The exclude-regex guard `cfg["exclude_regex"] and re.search(...)`. -/
def excludeRegexHits : Option (List Char → Bool) → List Char → Bool
  | none, _ => false
  | some rx, w => rx w

/-- `GenerateWorker.apply_filters`: sequential early-false checks. -/
def apply_filters (cfg : GenConfig) (w : List Char) : Bool :=
  if cfg.min_word_len ≠ 0 ∧ w.length < cfg.min_word_len then false
  else if cfg.max_word_len ≠ 0 ∧ cfg.max_word_len < w.length then false
  else if cfg.remove_words_with_numbers ∧ w.any isDigitChar then false
  else if cfg.remove_words_with_symbols ∧ w.any (fun c => !(isWordChar c)) then false
  else if includeRegexFails cfg.include_regex w then false
  else if excludeRegexHits cfg.exclude_regex w then false
  else true

/-- Python `str.title()` on ASCII: uppercase an alphabetic character following
a non-alphabetic one (or the start), lowercase the other alphabetic ones. -/
def pyTitle : List Char → Bool → List Char
  | [], _ => []
  | c :: cs, prevAlpha =>
    (if c.isAlpha then (if prevAlpha then c.toLower else c.toUpper) else c) ::
      pyTitle cs c.isAlpha

/-- Per-character random casing: `random.choice([True, False])` per character
(index 0 of the pair is `True`, i.e. uppercase). -/
def randCase (σ : Oracle) : List Char → Nat → List Char × Nat
  | [], k => ([], k)
  | c :: cs, k =>
    let c' := if σ k % 2 = 0 then c.toUpper else c.toLower
    let r := randCase σ cs (k + 1)
    (c' :: r.1, r.2)

/-- `GenerateWorker.apply_case`. -/
def apply_case (cfg : GenConfig) (w : List Char) (σ : Oracle) (k : Nat) :
    List Char × Nat :=
  if cfg.case_mode = "lower" then (w.map Char.toLower, k)
  else if cfg.case_mode = "upper" then (w.map Char.toUpper, k)
  else if cfg.case_mode = "title" then (pyTitle w false, k)
  else if cfg.case_mode = "random" then randCase σ w k
  else (w, k)

/-- Fixed-length digit block: `"".join(random.choice("0123456789") for _ in range(n))`. -/
def randFixedDigits (σ : Oracle) : Nat → Nat → List Char × Nat
  | 0, k => ([], k)
  | n + 1, k =>
    let c := pyChoice σ k DIGITS
    let r := randFixedDigits σ n c.2
    (c.1 :: r.1, r.2)

/-- `GenerateWorker.rand_num`: a fixed-length digit string when
`num_type == "fixed"`, otherwise `str(random.randint(0, num_max))`. -/
def rand_num (cfg : GenConfig) (σ : Oracle) (k : Nat) : List Char × Nat :=
  if cfg.num_type = "fixed" then randFixedDigits σ cfg.num_len k
  else (decDigits (σ k % (cfg.num_max + 1)), k + 1)

/-- Symbol block of `n` draws from SYMBOLS. -/
def randSymAux (σ : Oracle) : Nat → Nat → List Char × Nat
  | 0, k => ([], k)
  | n + 1, k =>
    let c := pyChoice σ k SYMBOLS
    let r := randSymAux σ n c.2
    (c.1 :: r.1, r.2)

/-- `GenerateWorker.rand_sym`: `sym_count` random symbols. -/
def rand_sym (cfg : GenConfig) (σ : Oracle) (k : Nat) : List Char × Nat :=
  randSymAux σ cfg.sym_count k

/-- `GenerateWorker.sep_char`. -/
def sep_char (cfg : GenConfig) : List Char :=
  if cfg.separator = "dash" then ['-']
  else if cfg.separator = "underscore" then ['_']
  else if cfg.separator = "dot" then ['.']
  else []

/-- Python `s.split("-")` on character lists (`cur` holds the reversed
current token). -/
def splitDash : List Char → List Char → List (List Char)
  | [], cur => [cur.reverse]
  | '-' :: rest, cur => cur.reverse :: splitDash rest []
  | c :: rest, cur => splitDash rest (c :: cur)

/-- The token list `pattern.split("-")`. -/
def patternParts (pat : List Char) : List (List Char) := splitDash pat []

/-- `GenerateWorker.pick_word`: draw uniformly from the pool until the word
passes `apply_filters`; the unbounded `while` gets explicit fuel and an
empty pool (a raised `IndexError`) is `none`. -/
def pick_word (cfg : GenConfig) (pool : List (List Char)) (σ : Oracle) :
    Nat → Nat → Option (List Char × Nat)
  | _, 0 => none
  | k, fuel + 1 =>
    if pool = [] then none
    else
      let w := pool.getD (σ k % pool.length) []
      if apply_filters cfg w then some (w, k + 1)
      else pick_word cfg pool σ (k + 1) fuel

/-- Body of `GenerateWorker.build_from_pattern`: fold over the token list,
appending a picked word for `W`, a numeric block for `D`, a symbol block for
`S`, and the token itself otherwise. -/
def buildPattern (cfg : GenConfig) (pool : List (List Char)) (σ : Oracle)
    (fuel : Nat) : List (List Char) → Nat → Option (List Char × Nat)
  | [], k => some ([], k)
  | p :: ps, k =>
    if p = ['W'] then
      match pick_word cfg pool σ k fuel with
      | none => none
      | some wk =>
        match buildPattern cfg pool σ fuel ps wk.2 with
        | none => none
        | some rest => some (wk.1 ++ rest.1, rest.2)
    else if p = ['D'] then
      let d := rand_num cfg σ k
      match buildPattern cfg pool σ fuel ps d.2 with
      | none => none
      | some rest => some (d.1 ++ rest.1, rest.2)
    else if p = ['S'] then
      let s := rand_sym cfg σ k
      match buildPattern cfg pool σ fuel ps s.2 with
      | none => none
      | some rest => some (s.1 ++ rest.1, rest.2)
    else
      match buildPattern cfg pool σ fuel ps k with
      | none => none
      | some rest => some (p ++ rest.1, rest.2)

/-- `GenerateWorker.build_from_pattern`. -/
def build_from_pattern (cfg : GenConfig) (pool : List (List Char)) (σ : Oracle)
    (k fuel : Nat) : Option (List Char × Nat) :=
  buildPattern cfg pool σ fuel (patternParts cfg.pattern) k

/-- `remove_ambiguous`: `pwd.replace(c, "")` for each ambiguous character. -/
def remove_ambiguous (pwd : List Char) : List Char :=
  AMBIGUOUS.foldl (fun p c => p.filter (fun x => x ≠ c)) pwd

/-- Swap two positions of a list (out-of-range indices leave it unchanged). -/
def swapAt (l : List (List Char)) (i j : Nat) : List (List Char) :=
  let xi := l.getD i []
  let xj := l.getD j []
  (l.set i xj).set j xi

/-- Fisher–Yates walk of `random.shuffle`: for i from len-1 down to 1 swap
position i with a random position j ≤ i. -/
def shuffleAux (σ : Oracle) : List (List Char) → Nat → Nat → List (List Char) × Nat
  | l, 0, k => (l, k)
  | l, i + 1, k =>
    let j := σ k % (i + 2)
    shuffleAux σ (swapAt l (i + 1) j) i (k + 1)

/-- Model of `random.shuffle(parts)`. -/
def pyShuffle (l : List (List Char)) (σ : Oracle) (k : Nat) :
    List (List Char) × Nat :=
  shuffleAux σ l (l.length - 1) k

/-- The word-composition draw loop (lines 159-170): exactly
`words_per_password` iterations; a draw failing the uniqueness check is
discarded; `used` records the raw drawn words; casing and leet are applied
after the uniqueness bookkeeping. -/
def drawWords (cfg : GenConfig) (pool : List (List Char)) (σ : Oracle)
    (fuel : Nat) : Nat → Nat → List (List Char) → Option (List (List Char) × Nat)
  | 0, k, _ => some ([], k)
  | n + 1, k, used =>
    match pick_word cfg pool σ k fuel with
    | none => none
    | some wk =>
      if cfg.unique_words ∧ wk.1 ∈ used then drawWords cfg pool σ fuel n wk.2 used
      else
        let used' := wk.1 :: used
        let w1 := if cfg.case_mode ≠ "none" then apply_case cfg wk.1 σ wk.2 else (wk.1, wk.2)
        let w2 := if cfg.leet_mode then leet w1.1 else w1.1
        match drawWords cfg pool σ fuel n w1.2 used' with
        | none => none
        | some rest => some (w2 :: rest.1, rest.2)

/-- The insert-between override loop (lines 180-188): concatenate the words,
inserting one random symbol or a numeric block strictly between consecutive
words (mode "none" or anything else inserts nothing). -/
def insertBetweenJoin (cfg : GenConfig) (σ : Oracle) :
    List (List Char) → Nat → List Char × Nat
  | [], k => ([], k)
  | [w], k => (w, k)
  | w :: v :: rest, k =>
    if cfg.insert_between = "symbol" then
      let c := pyChoice σ k SYMBOLS
      let r := insertBetweenJoin cfg σ (v :: rest) c.2
      (w ++ c.1 :: r.1, r.2)
    else if cfg.insert_between = "number" then
      let d := rand_num cfg σ k
      let r := insertBetweenJoin cfg σ (v :: rest) d.2
      (w ++ d.1 ++ r.1, r.2)
    else
      let r := insertBetweenJoin cfg σ (v :: rest) k
      (w ++ r.1, r.2)

/-- Lines 175-188: `pwd = sep.join(parts)` followed by
`if cfg["insert_between"]: pwd = newpwd`.  The config value is one of the
non-empty strings "none", "symbol", "number", so the Python truthiness test
succeeds for all of them and the override loop always replaces the
separator join. -/
def joinParts (cfg : GenConfig) (parts : List (List Char)) (σ : Oracle)
    (k : Nat) : List Char × Nat :=
  let sepJoin := List.intercalate (sep_char cfg) parts
  if cfg.insert_between ≠ "" then insertBetweenJoin cfg σ parts k
  else (sepJoin, k)

/-- One candidate in word-composition mode (lines 159-188). -/
def composeCandidate (cfg : GenConfig) (pool : List (List Char)) (σ : Oracle)
    (k fuel : Nat) : Option (List Char × Nat) :=
  match drawWords cfg pool σ fuel cfg.words_per_password k [] with
  | none => none
  | some parts =>
    let sh := if cfg.shuffle_words then pyShuffle parts.1 σ parts.2 else parts
    some (joinParts cfg sh.1 σ sh.2)

/-- Smart-mode top-up (lines 203-207): append a numeric block when no digit
is present, then append a symbol block when (after the first append) no
symbol-class character is present. -/
def smartTopUp (cfg : GenConfig) (pwd : List Char) (σ : Oracle) (k : Nat) :
    List Char × Nat :=
  let f :=
    if !(pwd.any isDigitChar) then
      let r := rand_num cfg σ k
      (pwd ++ r.1, r.2)
    else (pwd, k)
  if !(f.1.any isSymRegexChar) then
    let r := rand_sym cfg σ f.2
    (f.1 ++ r.1, r.2)
  else f

/-- Shared augmentation (lines 190-207): symbol block, numeric block (two
branches keyed on `numbers_at_end`), prefix/suffix wrapping, ambiguous
stripping, smart-mode top-up. -/
def augment (cfg : GenConfig) (pwd0 : List Char) (σ : Oracle) (k0 : Nat) :
    List Char × Nat :=
  let a :=
    if cfg.use_symbols then
      let r := rand_sym cfg σ k0
      (pwd0 ++ r.1, r.2)
    else (pwd0, k0)
  let b :=
    if cfg.use_numbers && !cfg.numbers_at_end then
      let r := rand_num cfg σ a.2
      (a.1 ++ r.1, r.2)
    else a
  let c :=
    if cfg.use_numbers && cfg.numbers_at_end then
      let r := rand_num cfg σ b.2
      (b.1 ++ r.1, r.2)
    else b
  let d := (cfg.prefixStr ++ c.1 ++ cfg.suffixStr, c.2)
  let e := if cfg.exclude_ambiguous then (remove_ambiguous d.1, d.2) else d
  if cfg.smart_mode then smartTopUp cfg e.1 σ e.2 else e

/-- One loop iteration's candidate: mode selection plus shared augmentation. -/
def genCandidate (cfg : GenConfig) (pool : List (List Char)) (σ : Oracle)
    (k fuel : Nat) : Option (List Char × Nat) :=
  match
    (if cfg.pattern_mode then build_from_pattern cfg pool σ k fuel
     else composeCandidate cfg pool σ k fuel) with
  | none => none
  | some r => some (augment cfg r.1 σ r.2)

/-- Observable events of a Generator run. -/
inductive GenEvent where
  | progress (pct : Nat)
  | wrote (path : String) (fmt : String) (content : List (List Char))
  | finished (results : List (List Char)) (path : String)
  deriving DecidableEq

/-- The `for i in range(count)` loop (lines 154-218): `r` candidates remain,
`i` is the current loop index, `seen` the emitted-password set.  Returns the
accepted passwords, the progress events (emitted only on the accept path,
after the length and duplicate `continue`s) and the final draw index. -/
def genLoop (cfg : GenConfig) (pool : List (List Char)) (σ : Oracle)
    (fuel : Nat) : Nat → Nat → Nat → List (List Char) →
    Option (List (List Char) × List GenEvent × Nat)
  | 0, _, k, _ => some ([], [], k)
  | r + 1, i, k, seen =>
    match genCandidate cfg pool σ k fuel with
    | none => none
    | some pk =>
      if cfg.min_len ≠ 0 ∧ pk.1.length < cfg.min_len then
        genLoop cfg pool σ fuel r (i + 1) pk.2 seen
      else if cfg.avoid_duplicates ∧ pk.1 ∈ seen then
        genLoop cfg pool σ fuel r (i + 1) pk.2 seen
      else
        match genLoop cfg pool σ fuel r (i + 1) pk.2 (pk.1 :: seen) with
        | none => none
        | some rest =>
          some (pk.1 :: rest.1,
                GenEvent.progress ((i + 1) * 100 / cfg.count) :: rest.2.1,
                rest.2.2)

/-- The effective pool: the loaded words, deduplicated in first-occurrence
order when `remove_source_duplicates` is set (lines 140-143). -/
def effPool (cfg : GenConfig) (loaded : List (List Char)) : List (List Char) :=
  if cfg.remove_source_duplicates then dedupFirst loaded else loaded

/-- `GenerateWorker.run` as an event trace: an empty effective pool emits the
empty `finished` result immediately (no file is written); otherwise the loop
runs, the output file is written and `finished` is emitted last. -/
def genRun (cfg : GenConfig) (loaded : List (List Char)) (σ : Oracle)
    (fuel : Nat) : Option (List GenEvent) :=
  let words := effPool cfg loaded
  if words = [] then some [GenEvent.finished [] cfg.output]
  else
    match genLoop cfg words σ fuel cfg.count 0 0 [] with
    | none => none
    | some out =>
      some (out.2.1 ++
        [GenEvent.wrote cfg.output cfg.output_format out.1,
         GenEvent.finished out.1 cfg.output])

/-- The percentages carried by the progress events of a trace, in order. -/
def progressPcts : List GenEvent → List Nat
  | [] => []
  | GenEvent.progress p :: es => p :: progressPcts es
  | GenEvent.wrote _ _ _ :: es => progressPcts es
  | GenEvent.finished _ _ :: es => progressPcts es

/-- Recognizer for `finished` events. -/
def isFinishedEv : GenEvent → Bool
  | GenEvent.finished _ _ => true
  | _ => false

/-- Recognizer for `wrote` events. -/
def isWroteEv : GenEvent → Bool
  | GenEvent.wrote _ _ _ => true
  | _ => false

/-- The Fixer configuration dictionary (paths and output format are external
I/O concerns; the input is passed as the list of stripped lines). -/
structure FixConfig where
  remove_ambiguous : Bool
  smart_mode : Bool
  min_len : Nat
  remove_duplicates : Bool
  max_entropy : Nat
  policy_upper : Bool
  policy_lower : Bool
  policy_number : Bool
  policy_symbol : Bool
  blacklist : List (List Char)
  whitelist : List (List Char)

/-- `FixWorker.ensure_policy`: for each required and absent class append one
random qualifying character, re-testing the updated string, in the fixed
order upper, lower, number, symbol. -/
def ensure_policy (cfg : FixConfig) (pwd0 : List Char) (σ : Oracle) (k : Nat) :
    List Char × Nat :=
  let a :=
    if cfg.policy_upper && !(pwd0.any isUpperChar) then
      let c := pyChoice σ k UPPER
      (pwd0 ++ [c.1], c.2)
    else (pwd0, k)
  let b :=
    if cfg.policy_lower && !(a.1.any isLowerChar) then
      let c := pyChoice σ a.2 LOWER
      (a.1 ++ [c.1], c.2)
    else a
  let c :=
    if cfg.policy_number && !(b.1.any isDigitChar) then
      (b.1 ++ decDigits (σ b.2 % 10), b.2 + 1)
    else b
  if cfg.policy_symbol && !(c.1.any isSymRegexChar) then
    let s := pyChoice σ c.2 SYMBOLS
    (c.1 ++ [s.1], s.2)
  else c

/-- Does `b` start `s`? -/
def leadsList : List Char → List Char → Bool
  | [], _ => true
  | _ :: _, [] => false
  | a :: as, b :: bs => a = b && leadsList as bs

/-- Python substring test `b in s` on character lists. -/
def occursIn (b : List Char) : List Char → Bool
  | [] => b.isEmpty
  | c :: cs => leadsList b (c :: cs) || occursIn b cs

open Classical in
/-- The per-line loop of `FixWorker.run` (lines 277-302): ambiguous
stripping, blacklist and whitelist substring checks, policy enforcement,
minimum length, duplicate and entropy-threshold rejection; the PRNG index
threads across lines. -/
noncomputable def fixLoop (cfg : FixConfig) (σ : Oracle) :
    List (List Char) → Nat → List (List Char) → List (List Char)
  | [], _, _ => []
  | pwd :: rest, k, seen =>
    let p1 := if cfg.remove_ambiguous then remove_ambiguous pwd else pwd
    if cfg.blacklist ≠ [] ∧ cfg.blacklist.any (fun b => occursIn b p1) then
      fixLoop cfg σ rest k seen
    else if cfg.whitelist ≠ [] ∧ !(cfg.whitelist.any (fun w => occursIn w p1)) then
      fixLoop cfg σ rest k seen
    else
      let pr := if cfg.smart_mode then ensure_policy cfg p1 σ k else (p1, k)
      if cfg.min_len ≠ 0 ∧ pr.1.length < cfg.min_len then fixLoop cfg σ rest pr.2 seen
      else if cfg.remove_duplicates ∧ pr.1 ∈ seen then fixLoop cfg σ rest pr.2 seen
      else if cfg.max_entropy ≠ 0 ∧ entropy pr.1 < (cfg.max_entropy : ℝ) then
        fixLoop cfg σ rest pr.2 seen
      else pr.1 :: fixLoop cfg σ rest pr.2 (pr.1 :: seen)

/-- `FixWorker.run` on the stripped non-empty input lines: the accepted
output sequence. -/
noncomputable def fixRun (cfg : FixConfig) (lines : List (List Char))
    (σ : Oracle) : List (List Char) :=
  fixLoop cfg σ (lines.filter (fun l => l ≠ [])) 0 []

/-- Pattern-mode configuration of the spec's expansion test: count 5,
pattern "W-W", no augmentation, no filtering (other fields at the GUI
defaults). -/
def cfgC1 : GenConfig :=
  { words_per_password := 2, case_mode := "none", unique_words := false,
    remove_words_with_numbers := false, remove_words_with_symbols := false,
    include_regex := none, exclude_regex := none,
    min_word_len := 0, max_word_len := 0,
    remove_source_duplicates := false, pattern_mode := true,
    pattern := "W-W".data, leet_mode := false, shuffle_words := false,
    insert_between := "none", use_numbers := false, num_type := "fixed",
    num_len := 2, num_max := 999, numbers_at_end := false,
    use_symbols := false, sym_count := 1, separator := "none",
    prefixStr := [], suffixStr := [], avoid_duplicates := false,
    min_len := 0, exclude_ambiguous := false, smart_mode := false,
    count := 5, output := "generated_wordlist.txt", output_format := "txt" }

/-- Word-composition configuration with the dash separator and
insert-between "none". -/
def cfgC2 : GenConfig := { cfgC1 with pattern_mode := false, separator := "dash" }

/-- One-word pattern, count 2, duplicate avoidance on. -/
def cfgC5 : GenConfig :=
  { cfgC1 with pattern := "W".data, count := 2, avoid_duplicates := true }

/-- Word-composition configuration with unique words on. -/
def cfgC7 : GenConfig := { cfgC1 with pattern_mode := false, unique_words := true }

/-- Literal pattern "x" with ambiguous-stripping and smart mode both on
(num_type "fixed" with one digit). -/
def cfgC10 : GenConfig :=
  { cfgC1 with
    pattern := "x".data
    count := 1
    num_len := 1
    exclude_ambiguous := true
    smart_mode := true
    avoid_duplicates := true }

/-- Fixer configuration with all four policy flags and policy enforcement
(smart mode) enabled, other options at the GUI defaults. -/
def fixCfgC3 : FixConfig :=
  { remove_ambiguous := true, smart_mode := true, min_len := 0,
    remove_duplicates := true, max_entropy := 0,
    policy_upper := true, policy_lower := true, policy_number := true,
    policy_symbol := true, blacklist := [], whitelist := [] }

/-- Base configuration with numeric augmentation enabled. -/
def cfgC9 : GenConfig := { cfgC1 with use_numbers := true }




theorem mem_dedupFirstAux {α : Type} [DecidableEq α] (x : α) :
    ∀ (l seen : List α), x ∈ dedupFirstAux seen l ↔ x ∈ l ∧ x ∉ seen := by
  intro l
  induction l with
  | nil => intro seen; simp [dedupFirstAux]
  | cons w ws ih =>
    intro seen
    by_cases hw : w ∈ seen
    · rw [dedupFirstAux, if_pos hw, ih]
      constructor
      · rintro ⟨h1, h2⟩; exact ⟨List.mem_cons_of_mem _ h1, h2⟩
      · rintro ⟨h1, h2⟩
        rcases List.mem_cons.mp h1 with rfl | h1
        · exact absurd hw h2
        · exact ⟨h1, h2⟩
    · rw [dedupFirstAux, if_neg hw, List.mem_cons, ih]
      constructor
      · rintro (rfl | ⟨h1, h2⟩)
        · exact ⟨List.mem_cons_self _ _, hw⟩
        · exact ⟨List.mem_cons_of_mem _ h1,
            fun hx => h2 (List.mem_cons_of_mem _ hx)⟩
      · rintro ⟨h1, h2⟩
        rcases List.mem_cons.mp h1 with rfl | h1
        · exact Or.inl rfl
        · by_cases hxw : x = w
          · exact Or.inl hxw
          · refine Or.inr ⟨h1, fun hx => ?_⟩
            rcases List.mem_cons.mp hx with h | h
            · exact hxw h
            · exact h2 h

theorem nodup_dedupFirstAux {α : Type} [DecidableEq α] :
    ∀ (l seen : List α), (dedupFirstAux seen l).Nodup := by
  intro l
  induction l with
  | nil => intro seen; simp [dedupFirstAux]
  | cons w ws ih =>
    intro seen
    by_cases hw : w ∈ seen
    · rw [dedupFirstAux, if_pos hw]; exact ih seen
    · rw [dedupFirstAux, if_neg hw]
      refine List.nodup_cons.mpr ⟨?_, ih _⟩
      intro hmem
      exact ((mem_dedupFirstAux w ws (w :: seen)).mp hmem).2 (List.mem_cons_self _ _)

theorem toFinset_dedupFirst {α : Type} [DecidableEq α] (l : List α) :
    (dedupFirst l).toFinset = l.toFinset := by
  ext x
  simp [dedupFirst, List.mem_toFinset, mem_dedupFirstAux]

theorem entropy_eq_finset (s : List Char) (hs : s ≠ []) :
    entropy s = (s.length : ℝ) *
      Finset.sum s.toFinset (fun c =>
        -((s.count c : ℝ) / (s.length : ℝ)) *
          Real.logb 2 ((s.count c : ℝ) / (s.length : ℝ))) := by
  have h1 : (dedupFirst s).Nodup := nodup_dedupFirstAux s []
  rw [entropy, if_neg hs, ← toFinset_dedupFirst s, List.sum_toFinset _ h1, mul_comm]

/-- C8: entropy is pure and total: entropy of the empty string is 0; for a
non-empty string it equals length times the Shannon sum over the distinct
characters of -(count/len) * log2(count/len); hence a single-symbol string
such as "aaaa" has entropy 0 and entropy is invariant under character
permutation of the same multiset. -/
theorem C8_entropy :
    entropy [] = 0 ∧
    (∀ s : List Char, s ≠ [] →
      entropy s = (s.length : ℝ) *
        Finset.sum s.toFinset (fun c =>
          -((s.count c : ℝ) / (s.length : ℝ)) *
            Real.logb 2 ((s.count c : ℝ) / (s.length : ℝ)))) ∧
    entropy ("aaaa".data) = 0 ∧
    (∀ s t : List Char, s.Perm t → entropy s = entropy t) := by
  have hperm : ∀ s t : List Char, s.Perm t → entropy s = entropy t := by
    intro s t hp
    by_cases hs : s = []
    · subst hs
      have ht : t = [] := hp.symm.eq_nil
      subst ht; rfl
    · have ht : t ≠ [] := fun h => hs (by subst h; exact hp.eq_nil)
      rw [entropy_eq_finset s hs, entropy_eq_finset t ht, hp.length_eq,
        List.toFinset_eq_of_perm _ _ hp]
      congr 1
      apply Finset.sum_congr rfl
      intro c _
      rw [List.perm_iff_count.mp hp c]
  refine ⟨by simp [entropy], entropy_eq_finset, ?_, hperm⟩
  have hd : dedupFirst ("aaaa".data) = ['a'] := by decide
  rw [entropy, if_neg (by decide), hd]
  have hc : (("aaaa".data).count 'a') = 4 := by decide
  simp [hc, Real.logb_one]



theorem getD_mem_of_ne_nil (l : List Char) (n : Nat) (hl : l ≠ []) :
    l.getD (n % l.length) ' ' ∈ l := by
  have hlen : 0 < l.length := List.length_pos.mpr hl
  have h : n % l.length < l.length := Nat.mod_lt _ hlen
  rw [List.getD_eq_getElem _ _ h]
  exact List.getElem_mem h

theorem pyChoice_mem (σ : Oracle) (k : Nat) (l : List Char) (hl : l ≠ []) :
    (pyChoice σ k l).1 ∈ l :=
  getD_mem_of_ne_nil l (σ k) hl

theorem upper_isUpper : ∀ c ∈ UPPER, isUpperChar c = true := by decide
theorem upper_not_digit : ∀ c ∈ UPPER, isDigitChar c = false := by decide
theorem upper_not_sym : ∀ c ∈ UPPER, isSymRegexChar c = false := by decide
theorem digits_isDigit : ∀ c ∈ DIGITS, isDigitChar c = true := by decide
theorem digits_not_sym : ∀ c ∈ DIGITS, isSymRegexChar c = false := by decide
theorem symbols_isSym : ∀ c ∈ SYMBOLS, isSymRegexChar c = true := by decide
theorem symRegex_not_digit : ∀ c ∈ SYM_REGEX, isDigitChar c = false := by decide
theorem digitChar_small : ∀ m, m < 10 → isDigitChar (digitChar m) = true := by decide

theorem decDigitsAux_digits : ∀ f n, (decDigitsAux f n).all isDigitChar = true := by
  intro f
  induction f with
  | zero => intro n; rfl
  | succ f ih =>
    intro n
    rw [decDigitsAux]
    by_cases h : n < 10
    · rw [if_pos h]
      simp [digitChar_small n h]
    · rw [if_neg h, List.all_append]
      simp [ih, digitChar_small (n % 10) (Nat.mod_lt _ (by norm_num))]

theorem decDigits_digits (n : Nat) : (decDigits n).all isDigitChar = true :=
  decDigitsAux_digits (n + 1) n

theorem randFixedDigits_digits (σ : Oracle) :
    ∀ n k, ((randFixedDigits σ n k).1).all isDigitChar = true := by
  intro n
  induction n with
  | zero => intro k; rfl
  | succ n ih =>
    intro k
    rw [randFixedDigits]
    simp only [List.all_cons, Bool.and_eq_true]
    exact ⟨digits_isDigit _ (pyChoice_mem σ k DIGITS (by decide)), ih _⟩

theorem randFixedDigits_length (σ : Oracle) :
    ∀ n k, ((randFixedDigits σ n k).1).length = n := by
  intro n
  induction n with
  | zero => intro k; rfl
  | succ n ih => intro k; rw [randFixedDigits]; simp [ih]

theorem rand_num_digits (cfg : GenConfig) (σ : Oracle) (k : Nat) :
    ((rand_num cfg σ k).1).all isDigitChar = true := by
  rw [rand_num]
  by_cases h : cfg.num_type = "fixed"
  · rw [if_pos h]; exact randFixedDigits_digits σ cfg.num_len k
  · rw [if_neg h]; exact decDigits_digits _

theorem rand_num_length_fixed (cfg : GenConfig) (σ : Oracle) (k : Nat)
    (h : cfg.num_type = "fixed") :
    ((rand_num cfg σ k).1).length = cfg.num_len := by
  rw [rand_num, if_pos h]; exact randFixedDigits_length σ cfg.num_len k

theorem randSymAux_length (σ : Oracle) :
    ∀ n k, ((randSymAux σ n k).1).length = n := by
  intro n
  induction n with
  | zero => intro k; rfl
  | succ n ih => intro k; rw [randSymAux]; simp [ih]

theorem randSymAux_symbols (σ : Oracle) :
    ∀ n k, ((randSymAux σ n k).1).all (fun c => SYMBOLS.contains c) = true := by
  intro n
  induction n with
  | zero => intro k; rfl
  | succ n ih =>
    intro k
    rw [randSymAux]
    simp only [List.all_cons, Bool.and_eq_true]
    refine ⟨?_, ih _⟩
    have := pyChoice_mem σ k SYMBOLS (by decide)
    simpa using this

theorem rand_sym_length (cfg : GenConfig) (σ : Oracle) (k : Nat) :
    ((rand_sym cfg σ k).1).length = cfg.sym_count :=
  randSymAux_length σ cfg.sym_count k

theorem rand_sym_symbols (cfg : GenConfig) (σ : Oracle) (k : Nat) :
    ((rand_sym cfg σ k).1).all (fun c => SYMBOLS.contains c) = true :=
  randSymAux_symbols σ cfg.sym_count k

theorem digit_not_symRegex (c : Char) (h : isDigitChar c = true) :
    isSymRegexChar c = false := by
  cases hs : isSymRegexChar c with
  | false => rfl
  | true =>
    have hc : c ∈ SYM_REGEX := by
      have := hs
      rw [isSymRegexChar] at this
      simpa using this
    rw [symRegex_not_digit c hc] at h
    cases h

theorem append_digits_any_sym (pwd num : List Char) (h : num.all isDigitChar = true) :
    (pwd ++ num).any isSymRegexChar = pwd.any isSymRegexChar := by
  rw [List.any_append]
  have hz : num.any isSymRegexChar = false := by
    rw [List.any_eq_false]
    intro c hc
    rw [digit_not_symRegex c (List.all_eq_true.mp h c hc)]
    simp
  rw [hz, Bool.or_false]

/-- C4 (amended): the Generator smart-mode top-up appends one random numeric
STRING (of num_len digits when num_type is "fixed", the decimal of a random
integer otherwise) when the candidate contains no digit, and one random
symbol STRING of sym_count symbols from the fixed symbol set when it contains
no symbol-class character; the two checks are independent and each applied
only when its class is absent.  (The original claim's "exactly one random
digit / one random symbol" holds only when num_len = 1 / sym_count = 1.) -/
theorem C4_smart_topup (cfg : GenConfig) (pwd : List Char) (σ : Oracle) (k : Nat) :
    ∃ num sym : List Char,
      (cfg.num_type = "fixed" → num.length = cfg.num_len) ∧
      num.all isDigitChar = true ∧
      sym.length = cfg.sym_count ∧
      sym.all (fun c => SYMBOLS.contains c) = true ∧
      (smartTopUp cfg pwd σ k).1 =
        (if pwd.any isDigitChar then pwd else pwd ++ num) ++
        (if pwd.any isSymRegexChar then [] else sym) := by
  have hnum := rand_num_digits cfg σ k
  cases hd : pwd.any isDigitChar with
  | true =>
    refine ⟨(rand_num cfg σ k).1, (rand_sym cfg σ k).1,
      fun hf => rand_num_length_fixed cfg σ k hf, hnum,
      rand_sym_length cfg σ k, rand_sym_symbols cfg σ k, ?_⟩
    cases hsym : pwd.any isSymRegexChar with
    | true => simp [smartTopUp, hd, hsym]
    | false => simp [smartTopUp, hd, hsym]
  | false =>
    have hsame := append_digits_any_sym pwd (rand_num cfg σ k).1 hnum
    cases hsym : pwd.any isSymRegexChar with
    | true =>
      refine ⟨(rand_num cfg σ k).1, (rand_sym cfg σ k).1,
        fun hf => rand_num_length_fixed cfg σ k hf, hnum,
        rand_sym_length cfg σ k, rand_sym_symbols cfg σ k, ?_⟩
      rw [hsym] at hsame
      simp [smartTopUp, hd, hsym, hsame]
    | false =>
      refine ⟨(rand_num cfg σ k).1, (rand_sym cfg σ (rand_num cfg σ k).2).1,
        fun hf => rand_num_length_fixed cfg σ k hf, hnum,
        rand_sym_length cfg σ _, rand_sym_symbols cfg σ _, ?_⟩
      rw [hsym] at hsame
      simp [smartTopUp, hd, hsym, hsame, List.append_assoc]



theorem decDigits_lt_ten : ∀ n, n < 10 → decDigits n = [digitChar n] := by decide

theorem pyChoice_idx (σ : Oracle) (k : Nat) (l : List Char) :
    (pyChoice σ k l).2 = k + 1 := rfl



theorem fixRun_abc (σ : Oracle) :
    fixRun fixCfgC3 [("abc".data)] σ =
      [("abc".data) ++
        [(pyChoice σ 0 UPPER).1, digitChar (σ 1 % 10), (pyChoice σ 2 SYMBOLS).1]] := by
  have hu := pyChoice_mem σ 0 UPPER (by decide)
  have hud : isDigitChar (pyChoice σ 0 UPPER).1 = false := upper_not_digit _ hu
  have hus : isSymRegexChar (pyChoice σ 0 UPPER).1 = false := upper_not_sym _ hu
  have huu : isUpperChar (pyChoice σ 0 UPPER).1 = true := upper_isUpper _ hu
  have hdd : decDigits (σ 1 % 10) = [digitChar (σ 1 % 10)] :=
    decDigits_lt_ten _ (Nat.mod_lt _ (by norm_num))
  have hds : isSymRegexChar (digitChar (σ 1 % 10)) = false :=
    digit_not_symRegex _ (digitChar_small _ (Nat.mod_lt _ (by norm_num)))
  have hra : remove_ambiguous ("abc".data) = "abc".data := rfl
  rw [fixRun]
  rw [show ([("abc".data)].filter (fun l => l ≠ [])) = [("abc".data)] from rfl]
  rw [fixLoop]
  simp only [fixCfgC3, ensure_policy, pyChoice_idx, hra, hdd]
  simp [hud, hus, huu, hds, List.any_append, fixLoop, List.append_assoc,
    show isUpperChar 'a' = false from by decide,
    show isUpperChar 'b' = false from by decide,
    show isUpperChar 'c' = false from by decide,
    show isLowerChar 'a' = true from by decide,
    show isDigitChar 'a' = false from by decide,
    show isDigitChar 'b' = false from by decide,
    show isDigitChar 'c' = false from by decide,
    show isSymRegexChar 'a' = false from by decide,
    show isSymRegexChar 'b' = false from by decide,
    show isSymRegexChar 'c' = false from by decide]
  rw [hdd]
  simp [hds]




theorem digitChar_mem_small : ∀ m, m < 10 → digitChar m ∈ DIGITS := by decide

/-- C3 (amended): the Fixer on input line "abc" with all four policy flags
enabled appends, in the fixed order upper, lower, number, symbol, exactly one
random qualifying character per required-and-absent class, so the output is
"abc" followed by one uppercase letter, one digit and one symbol: a 6
character string (not 7 or more: lowercase is already present) containing all
four classes with "abc" as a prefix. -/
theorem C3_policy_topup (σ : Oracle) :
    ∃ u d s : Char,
      fixRun fixCfgC3 [("abc".data)] σ = [("abc".data) ++ [u, d, s]] ∧
      u ∈ UPPER ∧ d ∈ DIGITS ∧ s ∈ SYMBOLS ∧
      (("abc".data) ++ [u, d, s]).length = 6 ∧
      (("abc".data) ++ [u, d, s]).any isUpperChar = true ∧
      (("abc".data) ++ [u, d, s]).any isLowerChar = true ∧
      (("abc".data) ++ [u, d, s]).any isDigitChar = true ∧
      (("abc".data) ++ [u, d, s]).any isSymRegexChar = true := by
  have hu := pyChoice_mem σ 0 UPPER (by decide)
  have hs := pyChoice_mem σ 2 SYMBOLS (by decide)
  have hd : digitChar (σ 1 % 10) ∈ DIGITS :=
    digitChar_mem_small _ (Nat.mod_lt _ (by norm_num))
  refine ⟨(pyChoice σ 0 UPPER).1, digitChar (σ 1 % 10), (pyChoice σ 2 SYMBOLS).1,
    fixRun_abc σ, hu, hd, hs, by simp, ?_, ?_, ?_, ?_⟩
  · rw [List.any_eq_true]
    exact ⟨(pyChoice σ 0 UPPER).1, by simp, upper_isUpper _ hu⟩
  · rw [List.any_eq_true]
    exact ⟨'a', by simp, by decide⟩
  · rw [List.any_eq_true]
    exact ⟨digitChar (σ 1 % 10), by simp, digitChar_small _ (Nat.mod_lt _ (by norm_num))⟩
  · rw [List.any_eq_true]
    exact ⟨(pyChoice σ 2 SYMBOLS).1, by simp, symbols_isSym _ hs⟩

/-- C3 counterexample: at the zero oracle the Fixer output for "abc" is
"abcA0!", whose length 6 refutes the claimed "length at least 7". -/
theorem C3_counterexample :
    fixRun fixCfgC3 [("abc".data)] (fun _ => 0) = [("abcA0!".data)] ∧
    ¬ (7 ≤ ("abcA0!".data).length) := by
  constructor
  · rw [fixRun_abc (fun _ => 0)]
    decide
  · decide

theorem drawWords_length_le (cfg : GenConfig) (pool : List (List Char)) (σ : Oracle)
    (fuel : Nat) :
    ∀ n k used parts kf, drawWords cfg pool σ fuel n k used = some (parts, kf) →
      parts.length ≤ n := by
  intro n
  induction n with
  | zero =>
    intro k used parts kf h
    simp only [drawWords, Option.some.injEq, Prod.mk.injEq] at h
    rw [← h.1]
    simp
  | succ n ih =>
    intro k used parts kf h
    simp only [drawWords] at h
    split at h
    · exact absurd h (by simp)
    · split at h
      · exact Nat.le_succ_of_le (ih _ _ _ _ h)
      · repeat' split at h
        all_goals try exact Option.noConfusion h
        all_goals
          (simp only [Option.some.injEq, Prod.mk.injEq] at h
           rw [← h.1]
           simp only [List.length_cons]
           have hle := ih _ _ _ _ (by assumption)
           omega)

theorem drawWords_consumes (cfg : GenConfig) (pool : List (List Char)) (σ : Oracle)
    (hpool : pool ≠ []) (hf : ∀ w, apply_filters cfg w = true)
    (hc : cfg.case_mode = "none") :
    ∀ n k used, ∃ parts, drawWords cfg pool σ 1 n k used = some (parts, k + n) ∧
      parts.length ≤ n := by
  intro n
  induction n with
  | zero => intro k used; exact ⟨[], by simp [drawWords], by simp⟩
  | succ n ih =>
    intro k used
    have hpw : pick_word cfg pool σ k 1 =
        some (pool.getD (σ k % pool.length) [], k + 1) := by
      rw [pick_word, if_neg hpool, if_pos (hf _)]
    by_cases hu : cfg.unique_words ∧ (pool.getD (σ k % pool.length) []) ∈ used
    · obtain ⟨parts, heq, hlen⟩ := ih (k + 1) used
      refine ⟨parts, ?_, Nat.le_succ_of_le hlen⟩
      simp only [drawWords, hpw]
      rw [if_pos hu, heq]
      have harith : k + 1 + n = k + (n + 1) := by omega
      rw [harith]
    · obtain ⟨parts, heq, hlen⟩ := ih (k + 1) ((pool.getD (σ k % pool.length) []) :: used)
      refine ⟨(if cfg.leet_mode then leet (pool.getD (σ k % pool.length) [])
        else pool.getD (σ k % pool.length) []) :: parts, ?_,
        by simpa using Nat.succ_le_succ hlen⟩
      simp only [drawWords, hpw]
      rw [if_neg hu]
      simp only [hc, ne_eq, not_true_eq_false, if_false, ite_false]
      rw [heq]
      have harith : k + 1 + n = k + (n + 1) := by omega
      rw [harith]





theorem map_ext_on {α β : Type} (f g : α → β) (l : List α) (h : ∀ a, f a = g a) :
    l.map f = l.map g := by
  induction l with
  | nil => rfl
  | cons x xs ih => simp only [List.map_cons, h x, ih]

theorem cfgC1_pattern_parts : patternParts cfgC1.pattern = [['W'], ['W']] := rfl

theorem apply_filters_cfgC1 (w : List Char) : apply_filters cfgC1 w = true := rfl

theorem pick_word_cfgC1 (σ : Oracle) (k : Nat) :
    pick_word cfgC1 [("test".data)] σ k 1 = some ("test".data, k + 1) := by
  simp [pick_word, Nat.mod_one, apply_filters_cfgC1]

theorem augment_cfgC1 (p : List Char) (σ : Oracle) (j : Nat) :
    augment cfgC1 p σ j = (p, j) := by
  simp [augment, cfgC1]

theorem build_cfgC1 (σ : Oracle) (k : Nat) :
    build_from_pattern cfgC1 [("test".data)] σ k 1 =
      some ("testtest".data, k + 2) := by
  have h1 := pick_word_cfgC1 σ k
  have h2 := pick_word_cfgC1 σ (k + 1)
  simp only [build_from_pattern, cfgC1_pattern_parts, buildPattern, h1, h2]
  simp

theorem genCandidate_cfgC1 (σ : Oracle) (k : Nat) :
    genCandidate cfgC1 [("test".data)] σ k 1 = some ("testtest".data, k + 2) := by
  simp only [genCandidate, show cfgC1.pattern_mode = true from rfl, if_true,
    build_cfgC1 σ k, augment_cfgC1]

theorem genLoop_cfgC1_step (σ : Oracle) (r i k : Nat) (seen : List (List Char)) :
    genLoop cfgC1 [("test".data)] σ 1 (r + 1) i k seen =
      match genLoop cfgC1 [("test".data)] σ 1 r (i + 1) (k + 2)
          (("testtest".data) :: seen) with
      | none => none
      | some rest =>
        some (("testtest".data) :: rest.1,
          GenEvent.progress ((i + 1) * 100 / 5) :: rest.2.1, rest.2.2) := by
  rw [genLoop, genCandidate_cfgC1 σ k]
  rfl

theorem genLoopC1 (σ : Oracle) :
    ∀ r i k seen, genLoop cfgC1 [("test".data)] σ 1 r i k seen =
      some (List.replicate r ("testtest".data),
        (List.range r).map (fun t => GenEvent.progress ((i + t + 1) * 100 / 5)),
        k + 2 * r) := by
  intro r
  induction r with
  | zero => intro i k seen; simp [genLoop]
  | succ r ih =>
    intro i k seen
    rw [genLoop_cfgC1_step, ih (i + 1) (k + 2) (("testtest".data) :: seen)]
    simp only [Option.some.injEq, Prod.mk.injEq]
    refine ⟨rfl, ?_, by omega⟩
    have htail : (List.range r).map
        ((fun t => GenEvent.progress ((i + t + 1) * 100 / 5)) ∘ Nat.succ) =
        (List.range r).map (fun t => GenEvent.progress ((i + 1 + t + 1) * 100 / 5)) := by
      apply map_ext_on
      intro t
      simp only [Function.comp]
      have : i + (t + 1) + 1 = i + 1 + t + 1 := by omega
      rw [this]
    rw [List.range_succ_eq_map, List.map_cons, List.map_map, htail]



theorem genRun_cfgC1 (σ : Oracle) :
    genRun cfgC1 [("test".data)] σ 1 =
      some [GenEvent.progress 20, GenEvent.progress 40, GenEvent.progress 60,
            GenEvent.progress 80, GenEvent.progress 100,
            GenEvent.wrote "generated_wordlist.txt" "txt"
              (List.replicate 5 ("testtest".data)),
            GenEvent.finished (List.replicate 5 ("testtest".data))
              "generated_wordlist.txt"] := by
  have h := genLoopC1 σ 5 0 0 []
  have hrun : genRun cfgC1 [("test".data)] σ 1 =
      (match genLoop cfgC1 [("test".data)] σ 1 5 0 0 [] with
       | none => none
       | some out => some (out.2.1 ++
          [GenEvent.wrote "generated_wordlist.txt" "txt" out.1,
           GenEvent.finished out.1 "generated_wordlist.txt"])) := rfl
  rw [hrun, h]
  rfl



theorem genLoop_spec (cfg : GenConfig) (pool : List (List Char)) (σ : Oracle)
    (fuel : Nat) :
    ∀ r i k seen res evs kf,
      genLoop cfg pool σ fuel r i k seen = some (res, evs, kf) →
      ∃ js : List Nat,
        evs = js.map (fun j => GenEvent.progress ((j + 1) * 100 / cfg.count)) ∧
        js.length = res.length ∧
        List.Chain' (· < ·) js ∧
        (∀ j ∈ js, i ≤ j ∧ j < i + r) := by
  intro r
  induction r with
  | zero =>
    intro i k seen res evs kf h
    simp only [genLoop, Option.some.injEq, Prod.mk.injEq] at h
    refine ⟨[], ?_, ?_, ?_, ?_⟩
    · rw [← h.2.1]; rfl
    · rw [← h.1]; rfl
    · exact List.chain'_nil
    · intro j hj; cases hj
  | succ r ih =>
    intro i k seen res evs kf h
    rw [genLoop] at h
    split at h
    · exact Option.noConfusion h
    · split at h
      · obtain ⟨js, h1, h2, h3, h4⟩ := ih _ _ _ _ _ _ h
        refine ⟨js, h1, h2, h3, fun j hj => ?_⟩
        have := h4 j hj
        omega
      · split at h
        · obtain ⟨js, h1, h2, h3, h4⟩ := ih _ _ _ _ _ _ h
          refine ⟨js, h1, h2, h3, fun j hj => ?_⟩
          have := h4 j hj
          omega
        · split at h
          · exact Option.noConfusion h
          · rename_i rest hrest
            obtain ⟨js, h1, h2, h3, h4⟩ := ih _ _ _ _ _ _ hrest
            simp only [Option.some.injEq, Prod.mk.injEq] at h
            refine ⟨i :: js, ?_, ?_, ?_, ?_⟩
            · rw [← h.2.1, h1]
              rfl
            · rw [← h.1]
              simp [h2]
            · rw [List.chain'_cons']
              refine ⟨?_, h3⟩
              intro y hy
              have hmem : y ∈ js := List.mem_of_mem_head? hy
              have := (h4 y hmem).1
              omega
            · intro j hj
              rcases List.mem_cons.mp hj with rfl | hj
              · omega
              · have := h4 j hj
                omega



theorem progressPcts_append (a b : List GenEvent) :
    progressPcts (a ++ b) = progressPcts a ++ progressPcts b := by
  induction a with
  | nil => rfl
  | cons e es ih =>
    cases e with
    | progress p => simp [progressPcts, ih]
    | wrote pa f c => simp [progressPcts, ih]
    | finished r pa => simp [progressPcts, ih]

theorem progressPcts_map_progress (g : Nat → Nat) (l : List Nat) :
    progressPcts (l.map (fun j => GenEvent.progress (g j))) = l.map g := by
  induction l with
  | nil => rfl
  | cons j js ih => simp [progressPcts, ih]

/-- C5 (amended): in every completed Generator run the progress percentages
are (i+1)*100/count for processed-candidate indices i (out of the configured
count, not out of accepted results) and form a monotonically non-decreasing
sequence; but an event is emitted only per ACCEPTED candidate (the length and
duplicate continue paths skip the emit), so the number of progress events
equals the number of accepted results. -/
theorem C5_progress_events (cfg : GenConfig) (loaded : List (List Char)) (σ : Oracle)
    (fuel : Nat) (trace : List GenEvent)
    (h : genRun cfg loaded σ fuel = some trace) :
    List.Chain' (· ≤ ·) (progressPcts trace) ∧
    (∀ p ∈ progressPcts trace, ∃ j, j < cfg.count ∧ p = (j + 1) * 100 / cfg.count) ∧
    ∃ res, GenEvent.finished res cfg.output ∈ trace ∧
      (progressPcts trace).length = res.length := by
  simp only [genRun] at h
  split at h
  · simp only [Option.some.injEq] at h
    subst h
    refine ⟨?_, ?_, [], ?_, ?_⟩
    all_goals simp [progressPcts]
  · split at h
    · exact Option.noConfusion h
    · rename_i out hout
      obtain ⟨js, h1, h2, h3, h4⟩ :=
        genLoop_spec cfg _ σ fuel cfg.count 0 0 [] out.1 out.2.1 out.2.2 hout
      simp only [Option.some.injEq] at h
      subst h
      have hp : progressPcts (out.2.1 ++
          [GenEvent.wrote cfg.output cfg.output_format out.1,
           GenEvent.finished out.1 cfg.output]) =
          js.map (fun j => (j + 1) * 100 / cfg.count) := by
        rw [progressPcts_append, h1, progressPcts_map_progress]
        simp [progressPcts]
      rw [hp]
      refine ⟨?_, ?_, out.1, ?_, ?_⟩
      · rw [List.chain'_map]
        exact h3.imp (fun a b hab => Nat.div_le_div_right
          (Nat.mul_le_mul_right _ (by omega)) )
      · intro p hp2
        obtain ⟨j, hj, rfl⟩ := List.mem_map.mp hp2
        exact ⟨j, by simpa using (h4 j hj).2, rfl⟩
      · simp
      · simp [h2]



/-- C6 (amended): every completed Generator run emits the finished event
exactly once; when the effective pool is non-empty the trace is progress
events followed by the write of the output file and then the finished event;
when the effective pool is empty the finished event with the empty result is
emitted immediately and no output file is written. -/
theorem C6_finished_event (cfg : GenConfig) (loaded : List (List Char)) (σ : Oracle)
    (fuel : Nat) (trace : List GenEvent)
    (h : genRun cfg loaded σ fuel = some trace) :
    trace.countP isFinishedEv = 1 ∧
    (effPool cfg loaded = [] → trace = [GenEvent.finished [] cfg.output]) ∧
    (effPool cfg loaded ≠ [] → ∃ evs res,
      trace = evs ++ [GenEvent.wrote cfg.output cfg.output_format res,
        GenEvent.finished res cfg.output] ∧
      (∀ e ∈ evs, ∃ p, e = GenEvent.progress p)) := by
  simp only [genRun] at h
  split at h
  · rename_i hempty
    simp only [Option.some.injEq] at h
    subst h
    refine ⟨?_, fun _ => rfl, fun hne => absurd hempty hne⟩
    simp [List.countP_cons, isFinishedEv]
  · rename_i hne
    split at h
    · exact Option.noConfusion h
    · rename_i out hout
      obtain ⟨js, h1, _h2, _h3, _h4⟩ :=
        genLoop_spec cfg _ σ fuel cfg.count 0 0 [] out.1 out.2.1 out.2.2 hout
      simp only [Option.some.injEq] at h
      subst h
      have hall : ∀ e ∈ out.2.1, ∃ p, e = GenEvent.progress p := by
        intro e he
        rw [h1] at he
        obtain ⟨j, _, rfl⟩ := List.mem_map.mp he
        exact ⟨_, rfl⟩
      refine ⟨?_, fun hc => absurd hc hne, fun _ => ⟨out.2.1, out.1, rfl, hall⟩⟩
      rw [List.countP_append]
      have hz : out.2.1.countP isFinishedEv = 0 := by
        rw [List.countP_eq_zero]
        intro e he
        obtain ⟨p, rfl⟩ := hall e he
        simp [isFinishedEv]
      rw [hz]
      simp [List.countP_cons, isFinishedEv]



theorem apply_filters_na (cfg : GenConfig) (x : Bool) (w : List Char) :
    apply_filters {cfg with numbers_at_end := x} w = apply_filters cfg w := rfl

theorem apply_case_na (cfg : GenConfig) (x : Bool) (w : List Char) (σ : Oracle)
    (k : Nat) :
    apply_case {cfg with numbers_at_end := x} w σ k = apply_case cfg w σ k := rfl

theorem rand_num_na (cfg : GenConfig) (x : Bool) (σ : Oracle) (k : Nat) :
    rand_num {cfg with numbers_at_end := x} σ k = rand_num cfg σ k := rfl

theorem rand_sym_na (cfg : GenConfig) (x : Bool) (σ : Oracle) (k : Nat) :
    rand_sym {cfg with numbers_at_end := x} σ k = rand_sym cfg σ k := rfl

theorem sep_char_na (cfg : GenConfig) (x : Bool) :
    sep_char {cfg with numbers_at_end := x} = sep_char cfg := rfl

theorem smartTopUp_na (cfg : GenConfig) (x : Bool) (p : List Char) (σ : Oracle)
    (k : Nat) :
    smartTopUp {cfg with numbers_at_end := x} p σ k = smartTopUp cfg p σ k := rfl

theorem pick_word_na (cfg : GenConfig) (x : Bool) (pool : List (List Char))
    (σ : Oracle) :
    ∀ fuel k, pick_word {cfg with numbers_at_end := x} pool σ k fuel =
      pick_word cfg pool σ k fuel := by
  intro fuel
  induction fuel with
  | zero => intro k; rfl
  | succ f ih =>
    intro k
    simp only [pick_word, apply_filters_na, ih]

theorem buildPattern_na (cfg : GenConfig) (x : Bool) (pool : List (List Char))
    (σ : Oracle) (fuel : Nat) :
    ∀ parts k, buildPattern {cfg with numbers_at_end := x} pool σ fuel parts k =
      buildPattern cfg pool σ fuel parts k := by
  intro parts
  induction parts with
  | nil => intro k; rfl
  | cons p ps ih =>
    intro k
    simp only [buildPattern, pick_word_na, rand_num_na, rand_sym_na, ih]

theorem build_from_pattern_na (cfg : GenConfig) (x : Bool)
    (pool : List (List Char)) (σ : Oracle) (k fuel : Nat) :
    build_from_pattern {cfg with numbers_at_end := x} pool σ k fuel =
      build_from_pattern cfg pool σ k fuel := by
  simp only [build_from_pattern, buildPattern_na]

theorem drawWords_na (cfg : GenConfig) (x : Bool) (pool : List (List Char))
    (σ : Oracle) (fuel : Nat) :
    ∀ n k used, drawWords {cfg with numbers_at_end := x} pool σ fuel n k used =
      drawWords cfg pool σ fuel n k used := by
  intro n
  induction n with
  | zero => intro k used; rfl
  | succ n ih =>
    intro k used
    simp only [drawWords, pick_word_na, apply_case_na, ih]

theorem insertBetweenJoin_na (cfg : GenConfig) (x : Bool) (σ : Oracle) :
    ∀ parts k, insertBetweenJoin {cfg with numbers_at_end := x} σ parts k =
      insertBetweenJoin cfg σ parts k := by
  intro parts
  induction parts with
  | nil => intro k; rfl
  | cons w rest ih =>
    cases rest with
    | nil => intro k; rfl
    | cons v vs =>
      intro k
      simp only [insertBetweenJoin, rand_num_na, ih]

theorem joinParts_na (cfg : GenConfig) (x : Bool) (parts : List (List Char))
    (σ : Oracle) (k : Nat) :
    joinParts {cfg with numbers_at_end := x} parts σ k = joinParts cfg parts σ k := by
  simp only [joinParts, insertBetweenJoin_na, sep_char_na]

theorem composeCandidate_na (cfg : GenConfig) (x : Bool) (pool : List (List Char))
    (σ : Oracle) (k fuel : Nat) :
    composeCandidate {cfg with numbers_at_end := x} pool σ k fuel =
      composeCandidate cfg pool σ k fuel := by
  simp only [composeCandidate, drawWords_na, joinParts_na]

theorem augment_na (cfg : GenConfig) (x y : Bool) (p : List Char) (σ : Oracle)
    (k : Nat) :
    augment {cfg with numbers_at_end := x} p σ k =
      augment {cfg with numbers_at_end := y} p σ k := by
  simp only [augment, rand_sym_na, rand_num_na, smartTopUp_na]
  cases x <;> cases y <;> cases hu : cfg.use_numbers <;> simp [hu]

theorem genCandidate_na (cfg : GenConfig) (x y : Bool) (pool : List (List Char))
    (σ : Oracle) (k fuel : Nat) :
    genCandidate {cfg with numbers_at_end := x} pool σ k fuel =
      genCandidate {cfg with numbers_at_end := y} pool σ k fuel := by
  simp only [genCandidate, build_from_pattern_na, composeCandidate_na]
  cases hb : (if cfg.pattern_mode then build_from_pattern cfg pool σ k fuel
      else composeCandidate cfg pool σ k fuel) with
  | none => rfl
  | some r => simp only [augment_na cfg x y]

theorem genLoop_na (cfg : GenConfig) (x y : Bool) (pool : List (List Char))
    (σ : Oracle) (fuel : Nat) :
    ∀ r i k seen, genLoop {cfg with numbers_at_end := x} pool σ fuel r i k seen =
      genLoop {cfg with numbers_at_end := y} pool σ fuel r i k seen := by
  intro r
  induction r with
  | zero => intro i k seen; rfl
  | succ r ih =>
    intro i k seen
    simp only [genLoop, genCandidate_na cfg x y, ih]

theorem genRun_na (cfg : GenConfig) (x y : Bool) (loaded : List (List Char))
    (σ : Oracle) (fuel : Nat) :
    genRun {cfg with numbers_at_end := x} loaded σ fuel =
      genRun {cfg with numbers_at_end := y} loaded σ fuel := by
  simp only [genRun, effPool, genLoop_na cfg x y]


/-- C1 (amended): in pattern mode the dash of the pattern string is a token
delimiter that is not emitted: expanding "W-W" over the pool ["test"] yields
"testtest" (not "test-test"), and the run with count 5 and no augmentation
or filtering produces exactly five copies of "testtest". -/
theorem C1_pattern_expansion (σ : Oracle) :
    (∀ k, build_from_pattern cfgC1 [("test".data)] σ k 1 =
      some ("testtest".data, k + 2)) ∧
    genRun cfgC1 [("test".data)] σ 1 =
      some [GenEvent.progress 20, GenEvent.progress 40, GenEvent.progress 60,
            GenEvent.progress 80, GenEvent.progress 100,
            GenEvent.wrote "generated_wordlist.txt" "txt"
              (List.replicate 5 ("testtest".data)),
            GenEvent.finished (List.replicate 5 ("testtest".data))
              "generated_wordlist.txt"] :=
  ⟨fun k => build_cfgC1 σ k, genRun_cfgC1 σ⟩

/-- C1 counterexample: at the zero oracle the run's five results are
"testtest", not the claimed "test-test". -/
theorem C1_counterexample :
    genRun cfgC1 [("test".data)] (fun _ => 0) 1 =
      some [GenEvent.progress 20, GenEvent.progress 40, GenEvent.progress 60,
            GenEvent.progress 80, GenEvent.progress 100,
            GenEvent.wrote "generated_wordlist.txt" "txt"
              (List.replicate 5 ("testtest".data)),
            GenEvent.finished (List.replicate 5 ("testtest".data))
              "generated_wordlist.txt"] ∧
    List.replicate 5 ("testtest".data) ≠ List.replicate 5 ("test-test".data) := by
  constructor <;> decide

/-- C2: with separator "dash" and insert-between "none" the code joins the
words "ab","cd" to "abcd": the string "none" is truthy, so the
insert-between override always replaces the separator join (the fixed
separator join "ab-cd" is computed and then discarded). -/
theorem C2_separator_discarded :
    (joinParts cfgC2 [("ab".data), ("cd".data)] (fun _ => 0) 0).1 = "abcd".data ∧
    List.intercalate (sep_char cfgC2) [("ab".data), ("cd".data)] = "ab-cd".data ∧
    "abcd".data ≠ "ab-cd".data := by
  refine ⟨by decide, by decide, by decide⟩

/-- C4 counterexample: with the default num_len 2 the smart top-up on the
digit-free candidate "x" appends the two-digit block "00" (then "!"), so two
digit characters are appended, refuting "exactly one random digit". -/
theorem C4_counterexample :
    (smartTopUp cfgC1 ['x'] (fun _ => 0) 0).1 = "x00!".data ∧
    (("x00!".data).filter isDigitChar).length = 2 := by
  constructor <;> decide

/-- C5 counterexample: a completed run with count 2 in which the second
candidate is discarded as a duplicate emits exactly one progress event, not
one per processed candidate. -/
theorem C5_counterexample :
    genRun cfgC5 [("test".data)] (fun _ => 0) 1 =
      some [GenEvent.progress 50,
            GenEvent.wrote "generated_wordlist.txt" "txt" [("test".data)],
            GenEvent.finished [("test".data)] "generated_wordlist.txt"] ∧
    (progressPcts [GenEvent.progress 50,
       GenEvent.wrote "generated_wordlist.txt" "txt" [("test".data)],
       GenEvent.finished [("test".data)] "generated_wordlist.txt"]).length = 1 ∧
    cfgC5.count = 2 := by
  refine ⟨by decide, by decide, by decide⟩

/-- C5 witness: the theorem applied to a concrete completed run. -/
theorem C5_witness :
    List.Chain' (· ≤ ·) (progressPcts [GenEvent.progress 50,
      GenEvent.wrote "generated_wordlist.txt" "txt" [("test".data)],
      GenEvent.finished [("test".data)] "generated_wordlist.txt"]) ∧
    (∀ p ∈ progressPcts [GenEvent.progress 50,
      GenEvent.wrote "generated_wordlist.txt" "txt" [("test".data)],
      GenEvent.finished [("test".data)] "generated_wordlist.txt"],
      ∃ j, j < cfgC5.count ∧ p = (j + 1) * 100 / cfgC5.count) ∧
    ∃ res, GenEvent.finished res cfgC5.output ∈ [GenEvent.progress 50,
      GenEvent.wrote "generated_wordlist.txt" "txt" [("test".data)],
      GenEvent.finished [("test".data)] "generated_wordlist.txt"] ∧
      (progressPcts [GenEvent.progress 50,
        GenEvent.wrote "generated_wordlist.txt" "txt" [("test".data)],
        GenEvent.finished [("test".data)] "generated_wordlist.txt"]).length =
        res.length :=
  C5_progress_events cfgC5 [("test".data)] (fun _ => 0) 1 _ (by decide)

/-- C6 counterexample: a run whose loaded pool is empty emits the finished
event with the empty result and no write event at all, refuting "finished is
emitted only after the Output Writer has completed writing". -/
theorem C6_counterexample :
    genRun cfgC1 [] (fun _ => 0) 1 =
      some [GenEvent.finished [] "generated_wordlist.txt"] ∧
    ([GenEvent.finished ([] : List (List Char)) "generated_wordlist.txt"].countP
      isWroteEv) = 0 ∧
    ([GenEvent.finished ([] : List (List Char)) "generated_wordlist.txt"].countP
      isFinishedEv) = 1 := by
  refine ⟨by decide, by decide, by decide⟩

/-- C6 witness: the theorem applied to the concrete empty-pool run. -/
theorem C6_witness :
    ([GenEvent.finished [] cfgC1.output].countP isFinishedEv) = 1 ∧
    (effPool cfgC1 [] = [] →
      [GenEvent.finished [] cfgC1.output] = [GenEvent.finished [] cfgC1.output]) ∧
    (effPool cfgC1 [] ≠ [] → ∃ evs res,
      [GenEvent.finished [] cfgC1.output] = evs ++
        [GenEvent.wrote cfgC1.output cfgC1.output_format res,
         GenEvent.finished res cfgC1.output] ∧
      (∀ e ∈ evs, ∃ p, e = GenEvent.progress p)) :=
  C6_finished_event cfgC1 [] (fun _ => 0) 1 _ (by decide)

/-- C7: the word-composition draw loop makes exactly n draws (the final draw
index is k + n whenever filters always pass, with or without uniqueness
skips), emits at most n words, and can emit strictly fewer: with the
one-word pool and unique words on, two iterations emit a single word. -/
theorem C7_draw_loop :
    (∀ (cfg : GenConfig) (pool : List (List Char)) (σ : Oracle) (fuel n k : Nat)
      (used parts : List (List Char)) (kf : Nat),
      drawWords cfg pool σ fuel n k used = some (parts, kf) →
        parts.length ≤ n) ∧
    (∀ (cfg : GenConfig) (pool : List (List Char)) (σ : Oracle) (n k : Nat)
      (used : List (List Char)),
      pool ≠ [] → (∀ w, apply_filters cfg w = true) → cfg.case_mode = "none" →
      ∃ parts, drawWords cfg pool σ 1 n k used = some (parts, k + n) ∧
        parts.length ≤ n) ∧
    (cfgC7.words_per_password = 2 ∧ cfgC7.unique_words = true ∧
      drawWords cfgC7 [("test".data)] (fun _ => 0) 1 2 0 [] =
        some ([("test".data)], 2) ∧ (1 : Nat) < 2) := by
  refine ⟨?_, ?_, by decide, by decide, by decide, by decide⟩
  · intro cfg pool σ fuel n k used parts kf h
    exact drawWords_length_le cfg pool σ fuel n k used parts kf h
  · intro cfg pool σ n k used h1 h2 h3
    exact drawWords_consumes cfg pool σ h1 h2 h3 n k used

/-- C7 witness: three filter-free draws from index 5 end at index 8. -/
theorem C7_witness :
    ∃ parts, drawWords cfgC1 [("test".data)] (fun _ => 0) 1 3 5 [] =
      some (parts, 5 + 3) ∧ parts.length ≤ 3 :=
  C7_draw_loop.2.1 cfgC1 [("test".data)] (fun _ => 0) 3 5 []
    (by decide) (fun _ => rfl) rfl

/-- C8 witness: the formula at "ab" and permutation invariance at a concrete
two-character swap. -/
theorem C8_witness :
    (("ab".data ≠ []) ∧ entropy ("ab".data) = (("ab".data).length : ℝ) *
      Finset.sum ("ab".data).toFinset (fun c =>
        -((("ab".data).count c : ℝ) / (("ab".data).length : ℝ)) *
          Real.logb 2 ((("ab".data).count c : ℝ) / (("ab".data).length : ℝ)))) ∧
    ((['a', 'b'] : List Char).Perm ['b', 'a'] ∧
      entropy ['a', 'b'] = entropy ['b', 'a']) :=
  ⟨⟨by decide, C8_entropy.2.1 _ (by decide)⟩,
   ⟨by decide, C8_entropy.2.2.2 _ _ (by decide)⟩⟩

/-- C9: with use_numbers enabled (and in fact for any configuration), two
runs identical except for the numbers_at_end flag produce exactly the same
event trace for every fixed oracle: the numeric block is appended once,
after symbol augmentation, whichever branch is taken. -/
theorem C9_numbers_at_end_noop (cfg : GenConfig) (loaded : List (List Char))
    (σ : Oracle) (fuel : Nat) (x y : Bool) (_h : cfg.use_numbers = true) :
    genRun {cfg with numbers_at_end := x} loaded σ fuel =
      genRun {cfg with numbers_at_end := y} loaded σ fuel :=
  genRun_na cfg x y loaded σ fuel

/-- C9 witness: the two flag values give the same trace on a concrete run
with numbers enabled. -/
theorem C9_witness :
    genRun {cfgC9 with numbers_at_end := true} [("test".data)] (fun _ => 0) 1 =
      genRun {cfgC9 with numbers_at_end := false} [("test".data)] (fun _ => 0) 1 :=
  C9_numbers_at_end_noop cfgC9 [("test".data)] (fun _ => 0) 1 true false (by decide)

/-- C10: with exclude_ambiguous and smart_mode both on, the run over the
literal pattern "x" emits the candidate "x0!": the smart top-up digit '0' is
appended after ambiguous stripping and is not re-stripped, so the emitted
candidate contains a character of the ambiguous set "0O1lI". -/
theorem C10_ambiguous_after_smart :
    genRun cfgC10 [("w".data)] (fun _ => 0) 1 =
      some [GenEvent.progress 100,
            GenEvent.wrote "generated_wordlist.txt" "txt" [("x0!".data)],
            GenEvent.finished [("x0!".data)] "generated_wordlist.txt"] ∧
    '0' ∈ ("x0!".data) ∧ '0' ∈ AMBIGUOUS := by
  refine ⟨by decide, by decide, by decide⟩

end Wordmake
